import Mathlib

/-!
Verification development for the KipDB storage cores (`src/kernel`).

The Rust sources are shallowly embedded: byte strings are `List Nat`
(each element a byte value), files are association lists from generation
number (`i64`, embedded as `Int`) to contents, machine-integer positions
and lengths (`u64`/`usize`) are `Nat`, and fallible operations return
`Except KvsError` or `Option` (with `none`/`.error` marking the Rust
error or panic paths, as noted at each definition).
-/

/-! ## Bytes and low-level helpers -/

/-- Byte strings (`Vec<u8>` / `&[u8]`); each element is a byte value. -/
abbrev Bytes := List Nat

/-- Contents of `&bytes[a..b]` for `a ≤ b ≤ bytes.length`. -/
def bslice (bytes : Bytes) (a b : Nat) : Bytes :=
  (bytes.drop a).take (b - a)

/-- Model of a positioned buffered-file write: overwrite `file` starting at
offset `pos` with `buf`, zero-extending if `pos` is past the end (the writer
seeks to `pos`). -/
def writeAt (file : Bytes) (pos : Nat) (buf : Bytes) : Bytes :=
  (file.take pos ++ List.replicate (pos - file.length) 0) ++ buf ++ file.drop (pos + buf.length)

/-- Model of `UniversalReader::read` (io_handler.rs:236-255): a `len`-byte
zeroed buffer is filled by a positioned read; bytes past the end of the file
remain zero. -/
def readAt (file : Bytes) (start len : Nat) : Bytes :=
  let r := (file.drop start).take len
  r ++ List.replicate (len - r.length) 0

/-! ## Association-list maps

`HashMap`/`BTreeMap` values are embedded as association lists; the modelled
operations (`lookup`, value-replacing `insert`, `erase`, `retain`) are
iteration-order independent for the maps' unique keys. -/

/-- Map lookup (first matching key). -/
def alookup {α β : Type} [DecidableEq α] : List (α × β) → α → Option β
  | [], _ => none
  | (k, v) :: rest, key => if k = key then some v else alookup rest key

/-- Map insert: replace the value at `key` in place, or append the binding. -/
def ainsert {α β : Type} [DecidableEq α] : List (α × β) → α → β → List (α × β)
  | [], key, v => [(key, v)]
  | (k, w) :: rest, key, v =>
    if k = key then (key, v) :: rest else (k, w) :: ainsert rest key v

/-- Map erase (first matching key). -/
def aerase {α β : Type} [DecidableEq α] : List (α × β) → α → List (α × β)
  | [], _ => []
  | (k, w) :: rest, key => if k = key then rest else (k, w) :: aerase rest key

theorem alookup_ainsert_self {α β : Type} [DecidableEq α]
    (l : List (α × β)) (k : α) (v : β) : alookup (ainsert l k v) k = some v := by
  induction l with
  | nil => simp [ainsert, alookup]
  | cons p rest ih =>
    obtain ⟨k', w⟩ := p
    by_cases h : k' = k <;> simp [ainsert, alookup, h, ih]

/-! ## Command records (`kernel/mod.rs`) -/

/-- Embeds `CommandData` (mod.rs:93-99): the tagged command union. -/
inductive CommandData : Type
  | Set : Bytes → Bytes → CommandData
  | Remove : Bytes → CommandData
  | Get : Bytes → CommandData
deriving DecidableEq

/-- Modelled from the spec: `rmp_serde::to_vec`, the external compact
self-describing binary serialiser of `CommandData` (the crate is not part of
this repository's sources). The model keeps the properties the kernel relies
on: a tagged, self-delimiting, injective encoding of at least one byte. -/
def rmp_to_vec : CommandData → Bytes
  | CommandData.Set key value => 0 :: key.length :: (key ++ value.length :: value)
  | CommandData.Remove key => 1 :: key.length :: key
  | CommandData.Get key => 2 :: key.length :: key

/-- Modelled from the spec: `rmp_serde::from_slice`, the external
deserialiser; `none` is a decode error (`.ok()` in the callers). Inverse of
`rmp_to_vec` on exactly-consumed input. -/
def rmp_from_slice : Bytes → Option CommandData
  | 0 :: kl :: rest =>
    if kl ≤ rest.length then
      match rest.drop kl with
      | vl :: rest2 =>
        if rest2.length = vl then some (CommandData.Set (rest.take kl) rest2) else none
      | [] => none
    else none
  | 1 :: kl :: rest => if rest.length = kl then some (CommandData.Remove rest) else none
  | 2 :: kl :: rest => if rest.length = kl then some (CommandData.Get rest) else none
  | _ => none

theorem rmp_round_trip (cmd : CommandData) : rmp_from_slice (rmp_to_vec cmd) = some cmd := by
  cases cmd with
  | Set key value =>
    simp [rmp_to_vec, rmp_from_slice, List.drop_append_of_le_length,
      List.take_append_of_le_length]
  | Remove key => simp [rmp_to_vec, rmp_from_slice]
  | Get key => simp [rmp_to_vec, rmp_from_slice]

theorem rmp_to_vec_length_pos (cmd : CommandData) : 1 ≤ (rmp_to_vec cmd).length := by
  cases cmd <;> simp [rmp_to_vec]

/-! ## Record framing (`CommandPackage`, mod.rs:124-251) -/

/-- Embeds `CommandPackage::trans_to_vec_u8` (mod.rs:172-181): 4-byte big-endian
length prefix (`as u8` truncates mod 256) followed by the encoded payload. -/
def trans_to_vec_u8 (cmd : CommandData) : Bytes :=
  let vec := rmp_to_vec cmd
  let i := vec.length
  ((i >>> 24) % 256) :: ((i >>> 16) % 256) :: ((i >>> 8) % 256) :: (i % 256) :: vec

/-- Embeds `CommandPackage::from_4_bit_with_start` (mod.rs:245-250): read a
big-endian `usize` from the first four bytes. -/
def from_4_bit_with_start : Bytes → Nat
  | a :: b :: c :: d :: _ => d ||| (c <<< 8) ||| (b <<< 16) ||| (a <<< 24)
  | _ => 0

/-- Embeds `CommandPackage::get_vec_bytes` loop body (mod.rs:226-239). `fuel` only
bounds the iteration count for Lean's termination (the Rust loop terminates
because `last_pos` strictly increases by `len + 4 ≥ 5` per iteration, so
`bytes.length + 1` iterations always suffice). `some` frames are the
collected payload slices; `none` models the out-of-range bslice panic of
`&bytes[pos..last_pos]` when `last_pos > bytes.len()`. -/
def get_vec_bytes_go (bytes : Bytes) : Nat → Nat → Option (List Bytes)
  | 0, _ => none
  | fuel + 1, last_pos =>
    let pos := last_pos + 4
    if bytes.length ≤ pos then some []
    else
      let len := from_4_bit_with_start (bslice bytes last_pos pos)
      if len < 1 ∨ bytes.length < len then some []
      else
        let last_pos' := last_pos + len + 4
        if last_pos' ≤ bytes.length then
          (get_vec_bytes_go bytes fuel last_pos').map (bslice bytes pos last_pos' :: ·)
        else none

/-- Embeds `CommandPackage::get_vec_bytes` (mod.rs:219-242). -/
def get_vec_bytes (bytes : Bytes) : Option (List Bytes) :=
  if bytes.length < 4 then some []
  else get_vec_bytes_go bytes (bytes.length + 1) 0

/-- Embeds `CommandPackage::from_bytes_to_unpack_vec` (mod.rs:205-209): scan the
frames, decode each payload, silently dropping decode failures. -/
def from_bytes_to_unpack_vec (bytes : Bytes) : Option (List CommandData) :=
  (get_vec_bytes bytes).map (List.filterMap rmp_from_slice)

/-- Position bookkeeping of `CommandPackage::from_bytes_to_vec`
(mod.rs:190-202): payload positions start at 4 and advance by `len + 4`
per frame, also past frames whose payload fails to decode. -/
def packages_of_chunks : List Bytes → Nat → List (CommandData × Nat × Nat)
  | [], _ => []
  | c :: rest, pos =>
    match rmp_from_slice c with
    | some cmd => (cmd, pos, c.length) :: packages_of_chunks rest (pos + c.length + 4)
    | none => packages_of_chunks rest (pos + c.length + 4)

/-- Embeds `CommandPackage::from_bytes_to_vec` (mod.rs:190-202). -/
def from_bytes_to_vec (bytes : Bytes) : Option (List (CommandData × Nat × Nat)) :=
  (get_vec_bytes bytes).map (packages_of_chunks · 4)

/-! ## Big-endian header round trip -/

theorem lor_shift_eq_add (a b n : Nat) (hb : b < 2 ^ n) :
    b ||| a <<< n = 2 ^ n * a + b := by
  rw [Nat.shiftLeft_eq, Nat.mul_comm a (2 ^ n), Nat.lor_comm,
    ← Nat.mul_add_lt_is_or hb a]

/-- The 4-byte big-endian length prefix written by `trans_to_vec_u8` is read
back exactly by `from_4_bit_with_start`, for lengths below `2^32`. -/
theorem from_4_bit_round (i : Nat) (h : i < 2 ^ 32) (rest : Bytes) :
    from_4_bit_with_start
      (((i >>> 24) % 256) :: ((i >>> 16) % 256) :: ((i >>> 8) % 256) :: (i % 256) :: rest)
      = i := by
  show (i % 256) ||| ((i >>> 8) % 256) <<< 8 ||| ((i >>> 16) % 256) <<< 16
      ||| ((i >>> 24) % 256) <<< 24 = i
  simp only [Nat.shiftRight_eq_div_pow]
  rw [lor_shift_eq_add _ _ _ (show i % 256 < 2 ^ 8 by omega)]
  rw [lor_shift_eq_add _ _ _
    (show 2 ^ 8 * (i / 2 ^ 8 % 256) + i % 256 < 2 ^ 16 by omega)]
  rw [lor_shift_eq_add _ _ _
    (show 2 ^ 16 * (i / 2 ^ 16 % 256) + (2 ^ 8 * (i / 2 ^ 8 % 256) + i % 256) < 2 ^ 24 by
      omega)]
  omega

/-! ## Claim C3: frame-scanner round trip -/

theorem length_le_flatten_frames (xs : List CommandData) :
    xs.length ≤ ((xs.map trans_to_vec_u8).flatten).length := by
  induction xs with
  | nil => simp
  | cons x rest ih =>
    simp only [List.map_cons, List.flatten_cons, List.length_append, List.length_cons]
    have : 1 ≤ (trans_to_vec_u8 x).length := by simp [trans_to_vec_u8]
    omega


theorem get_vec_bytes_go_frames (xs : List CommandData) :
    ∀ (pre : Bytes) (fuel : Nat), xs.length < fuel →
    (∀ x ∈ xs, (rmp_to_vec x).length < 2 ^ 32) →
    get_vec_bytes_go (pre ++ (xs.map trans_to_vec_u8).flatten) fuel pre.length
      = some (xs.map rmp_to_vec) := by
  induction xs with
  | nil =>
    intro pre fuel hfuel _
    match fuel, hfuel with
    | fuel + 1, _ => simp [get_vec_bytes_go]
  | cons x rest ih =>
    intro pre fuel hfuel hbound
    match fuel, hfuel with
    | fuel + 1, hfuel =>
      have hx : (rmp_to_vec x).length < 2 ^ 32 := hbound x (by simp)
      have hx1 : 1 ≤ (rmp_to_vec x).length := rmp_to_vec_length_pos x
      set v := rmp_to_vec x with hv
      set L := v.length with hL
      set flat := (rest.map trans_to_vec_u8).flatten with hflat
      set bytes := pre ++ ((x :: rest).map trans_to_vec_u8).flatten with hbytes
      have hframe : trans_to_vec_u8 x
          = (L >>> 24) % 256 :: (L >>> 16) % 256 :: (L >>> 8) % 256 :: L % 256 :: v := by
        simp [trans_to_vec_u8, ← hv, ← hL]
      have hlenb : bytes.length = pre.length + 4 + L + flat.length := by
        simp [hbytes, hframe, hflat]
        omega
      have hhdr : bslice bytes pre.length (pre.length + 4)
          = [(L >>> 24) % 256, (L >>> 16) % 256, (L >>> 8) % 256, L % 256] := by
        simp only [hbytes, List.map_cons, List.flatten_cons, bslice,
          ← List.append_assoc]
        rw [List.append_assoc pre]
        rw [List.drop_left pre]
        simp [hframe, List.take, Nat.add_sub_cancel_left]
      have hpay : bslice bytes (pre.length + 4) (pre.length + L + 4) = v := by
        have hsplit : bytes
            = (pre ++ [(L >>> 24) % 256, (L >>> 16) % 256, (L >>> 8) % 256, L % 256])
              ++ (v ++ flat) := by
          simp [hbytes, hframe]
        rw [hsplit, bslice, List.drop_left' (by simp)]
        have : pre.length + L + 4 - (pre.length + 4) = L := by omega
        rw [this, List.take_left' hL.symm]
      have hrec : get_vec_bytes_go bytes fuel (pre.length + L + 4)
          = some (rest.map rmp_to_vec) := by
        have hsplit : bytes = (pre ++ trans_to_vec_u8 x) ++ flat := by
          simp [hbytes]
        have hlenp : (pre ++ trans_to_vec_u8 x).length = pre.length + L + 4 := by
          simp [hframe]
          omega
        rw [hsplit, ← hlenp]
        exact ih (pre ++ trans_to_vec_u8 x) fuel (by simpa using hfuel) fun y hy =>
          hbound y (by simp [hy])
      show get_vec_bytes_go bytes (fuel + 1) pre.length = _
      rw [get_vec_bytes_go]
      simp only [hhdr]
      rw [from_4_bit_round L hx]
      rw [if_neg (by omega)]
      rw [if_neg (by omega)]
      rw [if_pos (by omega)]
      rw [hrec]
      simp [hpay]

theorem filterMap_rmp_round (xs : List CommandData) :
    List.filterMap rmp_from_slice (xs.map rmp_to_vec) = xs := by
  induction xs with
  | nil => simp
  | cons x rest ih => simp [rmp_round_trip, ih]

/-- Claim C3: for every list `xs` of commands whose encodings are between 1
and `2^32 - 1` bytes long, scanning the concatenation of their framed
encodings returns `xs`:
`from_bytes_to_unpack_vec (concat (trans_to_vec_u8 x))` succeeds (no panic)
and yields exactly `xs`. -/
theorem frame_scan_round_trip (xs : List CommandData)
    (h1 : ∀ x ∈ xs, 1 ≤ (rmp_to_vec x).length)
    (h2 : ∀ x ∈ xs, (rmp_to_vec x).length ≤ 2 ^ 32 - 1) :
    from_bytes_to_unpack_vec ((xs.map trans_to_vec_u8).flatten) = some xs := by
  cases xs with
  | nil => simp [from_bytes_to_unpack_vec, get_vec_bytes]
  | cons x rest =>
    rw [from_bytes_to_unpack_vec, get_vec_bytes]
    have hlen5 : ¬ ((((x :: rest).map trans_to_vec_u8).flatten).length < 4) := by
      simp [trans_to_vec_u8]
    rw [if_neg hlen5]
    have hgo := get_vec_bytes_go_frames (x :: rest) []
      ((((x :: rest).map trans_to_vec_u8).flatten).length + 1)
      (by have := length_le_flatten_frames (x :: rest); omega)
      (fun y hy => by have := h2 y hy; omega)
    simp only [List.nil_append, List.length_nil] at hgo
    rw [hgo]
    simpa using filterMap_rmp_round (x :: rest)

/-- Concrete commands witnessing the frame-scanner round trip. -/
def c3_sample : List CommandData :=
  [CommandData.Set [1] [2, 3], CommandData.Remove [4], CommandData.Get []]

theorem frame_scan_round_trip_witness :
    (∀ x ∈ c3_sample, 1 ≤ (rmp_to_vec x).length) ∧
    (∀ x ∈ c3_sample, (rmp_to_vec x).length ≤ 2 ^ 32 - 1) ∧
    from_bytes_to_unpack_vec ((c3_sample.map trans_to_vec_u8).flatten) = some c3_sample :=
  ⟨by decide, by decide, frame_scan_round_trip c3_sample (by decide) (by decide)⟩

/-! ## Claim C9: the frame scanner is not total -/

/-- Ten bytes whose 4-byte big-endian prefix declares a payload of 9 bytes,
while only 6 bytes follow. -/
def c9_bytes : Bytes := [0, 0, 0, 9, 1, 1, 1, 1, 1, 1]

/-- Claim C9: `get_vec_bytes` is not total on arbitrary input. On `c9_bytes`
(10 bytes declaring a payload of 9), the length check `1 ≤ len ≤ bytes.len()`
passes because it compares against the whole buffer, the frame extends past
the end of the buffer (`0 + 9 + 4 > 10`), and the slice
`&bytes[pos..last_pos]` indexes out of range — the model returns `none`
(the out-of-range panic) rather than a truncated `some` result. -/
theorem get_vec_bytes_panics_on_overlong_frame :
    from_4_bit_with_start (bslice c9_bytes 0 4) = 9 ∧
    1 ≤ 9 ∧ 9 ≤ c9_bytes.length ∧
    c9_bytes.length < 0 + 9 + 4 ∧
    get_vec_bytes c9_bytes = none := by decide

/-! ## HashStore state model (`kernel/hash_kv.rs`, `kernel/io_handler.rs`)

The store state is the manifest (hash_kv.rs:24-31) together with the
directory contents (gen ↦ file bytes). The `BufWriter` byte buffer is
elided: writes are applied to the file at the tracked writer position
(`BufWriterWithPos.pos`); `flush` is a no-op on this representation.
Iteration order of `HashMap`/`BTreeMap` is irrelevant to every modelled
operation (compaction sorts the index entries explicitly). -/

/-- Error kinds reachable in the modelled paths (error.rs:8-53). -/
inductive KvsError : Type
  | Io : KvsError
  | KeyNotFound : KvsError
  | UnexpectedCommandType : KvsError
  | FileNotFound : KvsError
deriving DecidableEq

/-- Embeds `CommandPos` (mod.rs:86-91): segment generation, payload offset, payload
length. -/
structure CommandPos : Type where
  gen : Int
  pos : Nat
  len : Nat
deriving DecidableEq

/-- Embeds `IOHandler` (io_handler.rs:96-126): the generation it owns and the
buffered writer position. `BufWriterWithPos::new` (io_handler.rs:308-316)
stores `seek(SeekFrom::Current(0))`, the cursor of the freshly opened file,
which is 0 (the file is opened without the append flag), regardless of the
file's existing size. -/
structure IOHandler : Type where
  gen : Int
  wpos : Nat
deriving DecidableEq

/-- Embeds `Manifest` (hash_kv.rs:24-31). -/
structure Manifest : Type where
  index : List (Bytes × CommandPos)
  current_gen : Int
  un_compacted : Nat
  compaction_threshold : Nat
  io_handler_index : List (Int × IOHandler)
deriving DecidableEq

/-- A `HashStore` together with the on-disk directory (gen ↦ `<gen>.log`
contents). -/
structure StoreState : Type where
  manifest : Manifest
  disk : List (Int × Bytes)
deriving DecidableEq

/-- Embeds `IOHandlerFactory::create` (io_handler.rs:35-45 and `IOHandler::new`):
open `<gen>.log` with create+write+read (no truncate, no append) — the file
is created empty if absent and kept intact otherwise — and a buffered writer
whose position is the fresh cursor, 0. -/
def factory_create (disk : List (Int × Bytes)) (gen : Int) :
    IOHandler × List (Int × Bytes) :=
  (⟨gen, 0⟩, match alookup disk gen with
             | some _ => disk
             | none => ainsert disk gen [])

/-- Embeds `IOHandlerFactory::clean` via `Manifest::retain` (hash_kv.rs:363-368):
delete `<gen>.log` (filenames are unique, so every binding of `gen` goes). -/
def factory_clean (disk : List (Int × Bytes)) (gen : Int) : List (Int × Bytes) :=
  disk.filter (fun p => !(p.1 == gen))

/-- Embeds `CommandPackage::from_pos_unpack` (mod.rs:184-187): positioned read on
the handler's own generation, then decode, mapping decode failure to `none`
(`.ok()`); a missing file is an I/O error. -/
def from_pos_unpack (disk : List (Int × Bytes)) (gen : Int) (start len : Nat) :
    Except KvsError (Option CommandData) :=
  match alookup disk gen with
  | none => Except.error KvsError.Io
  | some f => Except.ok (rmp_from_slice (readAt f start len))

/-- Embeds `CommandPackage::write` (mod.rs:141-150) through `IOHandler::write`
(io_handler.rs:175-196): append the framed record at the writer position and
return `(physical_pos + 4, physical_len - 4)`. Returns the updated handler
and file. -/
def command_package_write (h : IOHandler) (file : Bytes) (cmd : CommandData) :
    (Nat × Nat) × IOHandler × Bytes :=
  let frame := trans_to_vec_u8 cmd
  ((h.wpos + 4, frame.length - 4), ⟨h.gen, h.wpos + frame.length⟩, writeAt file h.wpos frame)

/-- Embeds `HashStore::get` (hash_kv.rs:218-238). -/
def hashGet (st : StoreState) (key : Bytes) : Except KvsError (Option Bytes) :=
  match alookup st.manifest.index key with
  | none => Except.ok none
  | some cmd_pos =>
    match alookup st.manifest.io_handler_index cmd_pos.gen with
    | none => Except.ok none
    | some h =>
      match from_pos_unpack st.disk h.gen cmd_pos.pos cmd_pos.len with
      | Except.error e => Except.error e
      | Except.ok none => Except.ok none
      | Except.ok (some (CommandData.Set _ value)) => Except.ok (some value)
      | Except.ok (some (CommandData.Remove _)) => Except.error KvsError.UnexpectedCommandType
      | Except.ok (some (CommandData.Get _)) => Except.error KvsError.UnexpectedCommandType

/-- Embeds `HashStore::get_cmd_data` (hash_kv.rs:45-55): index lookup, then read
through `Manifest::current_io_handler` (hash_kv.rs:317-320) — the handler of
the current write generation, not the generation in the entry. -/
def get_cmd_data (st : StoreState) (key : Bytes) : Except KvsError (Option CommandData) :=
  match alookup st.manifest.index key with
  | none => Except.ok none
  | some cmd_pos =>
    match alookup st.manifest.io_handler_index st.manifest.current_gen with
    | none => Except.error KvsError.FileNotFound
    | some h => from_pos_unpack st.disk h.gen cmd_pos.pos cmd_pos.len

/-- Embeds `HashStore::get_max_new_pos` (hash_kv.rs:156-163): first index whose
entry starts within `compaction_threshold` of `last_pos`, else 0. The `u64`
subtraction is embedded as `Nat` subtraction; callers keep `item.pos ≤
last_pos` (otherwise the Rust subtraction would underflow). -/
def get_max_new_pos_go : List CommandPos → Nat → Nat → Nat → Nat
  | [], _, _, _ => 0
  | item :: rest, last_pos, threshold, i =>
    if last_pos - item.pos < threshold then i
    else get_max_new_pos_go rest last_pos threshold (i + 1)

/-- Embeds `HashStore::get_max_new_pos` (hash_kv.rs:156-163). -/
def get_max_new_pos (vec_cmd_pos : List CommandPos) (last_pos threshold : Nat) : Nat :=
  get_max_new_pos_go vec_cmd_pos last_pos threshold 0

/-- Sorting order of `Manifest::sort_by_last_vec_mut` (hash_kv.rs:385-396):
by generation, then by position. -/
def cmdPosOrder (a b : Bytes × CommandPos) : Prop :=
  a.2.gen < b.2.gen ∨ (a.2.gen = b.2.gen ∧ a.2.pos ≤ b.2.pos)

instance : DecidableRel cmdPosOrder := fun a b => by
  unfold cmdPosOrder
  infer_instance

/-- Rewrite loop of `HashStore::compact` (hash_kv.rs:125-141): entries below
`skip_index` are left untouched; for the rest, re-read the record from its
segment and, when it decodes, append it to the compaction segment and point
the entry at the new location (`cmd_pos.change`); entries whose handler is
missing or whose record fails to decode keep their old position. Returns the
updated entries, disk, compaction handler, and `write_len`. -/
def compact_loop (compact_gen : Int) (skip_index : Nat) (hmap : List (Int × IOHandler)) :
    List (Bytes × CommandPos) → Nat → List (Int × Bytes) → IOHandler → Nat →
    Except KvsError (List (Bytes × CommandPos) × List (Int × Bytes) × IOHandler × Nat)
  | [], _, disk, ch, write_len => Except.ok ([], disk, ch, write_len)
  | (k, cp) :: rest, i, disk, ch, write_len =>
    if skip_index ≤ i then
      match alookup hmap cp.gen with
      | some h =>
        match from_pos_unpack disk h.gen cp.pos cp.len with
        | Except.error e => Except.error e
        | Except.ok (some cmd_data) =>
          let file := (alookup disk ch.gen).getD []
          let res := command_package_write ch file cmd_data
          match compact_loop compact_gen skip_index hmap rest (i + 1)
              (ainsert disk ch.gen res.2.2) res.2.1 (write_len + res.1.2) with
          | Except.error e => Except.error e
          | Except.ok (out, d, c, w) =>
            Except.ok ((k, ⟨compact_gen, res.1.1, res.1.2⟩) :: out, d, c, w)
        | Except.ok none =>
          match compact_loop compact_gen skip_index hmap rest (i + 1) disk ch write_len with
          | Except.error e => Except.error e
          | Except.ok (out, d, c, w) => Except.ok ((k, cp) :: out, d, c, w)
      | none =>
        match compact_loop compact_gen skip_index hmap rest (i + 1) disk ch write_len with
        | Except.error e => Except.error e
        | Except.ok (out, d, c, w) => Except.ok ((k, cp) :: out, d, c, w)
    else
      match compact_loop compact_gen skip_index hmap rest (i + 1) disk ch write_len with
      | Except.error e => Except.error e
      | Except.ok (out, d, c, w) => Except.ok ((k, cp) :: out, d, c, w)

/-- Embeds `HashStore::compact` (hash_kv.rs:107-152) with
`Manifest::compaction_increment` (hash_kv.rs:399-412) and `Manifest::retain`
(hash_kv.rs:356-374). -/
def hashCompact (st : StoreState) : Except KvsError StoreState :=
  let m := st.manifest
  match alookup m.io_handler_index m.current_gen with
  | none => Except.error KvsError.FileNotFound
  | some _ =>
    let current := m.current_gen
    let created := factory_create st.disk (current + 2)
    let hmap1 := ainsert m.io_handler_index (current + 2) created.1
    let compact_gen := current + 1
    let created2 := factory_create created.2 compact_gen
    let entries := List.insertionSort cmdPosOrder m.index
    match entries.getLast? with
    | none =>
      Except.ok ⟨{ m with current_gen := current + 2, io_handler_index := hmap1 },
        created2.2⟩
    | some lastE =>
      let last_pos := lastE.2.pos + lastE.2.len
      let skip_index := get_max_new_pos (entries.map Prod.snd) last_pos m.compaction_threshold
      match compact_loop compact_gen skip_index hmap1 entries 0 created2.2 created2.1 0 with
      | Except.error e => Except.error e
      | Except.ok (entries', disk3, ch', write_len) =>
        let hmap2 := ainsert hmap1 ch'.gen ch'
        let stale_gens := (hmap2.map Prod.fst).filter (fun g => decide (g < compact_gen))
        let disk4 := stale_gens.foldl (fun d g => factory_clean d g) disk3
        let index' := entries'.filter (fun e => !(stale_gens.contains e.2.gen))
        let hmap3 := hmap2.filter (fun p => !(stale_gens.contains p.1))
        Except.ok ⟨{ index := index',
                     current_gen := current + 2,
                     un_compacted := m.un_compacted + write_len,
                     compaction_threshold := m.compaction_threshold,
                     io_handler_index := hmap3 }, disk4⟩

/-- Embeds `HashStore::set` (hash_kv.rs:188-215): append `Set{k,v}` to the current
segment, index the new location, count the replaced entry's length into
`un_compacted`, and compact when the threshold is exceeded. -/
def hashSet (st : StoreState) (key value : Bytes) : Except KvsError StoreState :=
  let m := st.manifest
  let gen := m.current_gen
  match alookup m.io_handler_index gen with
  | none => Except.error KvsError.FileNotFound
  | some h =>
    let file := (alookup st.disk h.gen).getD []
    let res := command_package_write h file (CommandData.Set key value)
    let cmd_pos : CommandPos := ⟨gen, res.1.1, res.1.2⟩
    let un' := m.un_compacted +
      (match alookup m.index key with | some old_cmd => old_cmd.len | none => 0)
    let st' : StoreState :=
      ⟨{ m with index := ainsert m.index key cmd_pos,
                un_compacted := un',
                io_handler_index := ainsert m.io_handler_index gen res.2.1 },
       ainsert st.disk h.gen res.2.2⟩
    if m.compaction_threshold < un' then hashCompact st' else Except.ok st'

/-- Embeds `HashStore::remove` (hash_kv.rs:241-254). The returned state is the
store after the call (unchanged on either error path). -/
def hashRemove (st : StoreState) (key : Bytes) : Except KvsError Unit × StoreState :=
  if (alookup st.manifest.index key).isSome then
    match alookup st.manifest.io_handler_index st.manifest.current_gen with
    | none => (Except.error KvsError.FileNotFound, st)
    | some h =>
      let file := (alookup st.disk h.gen).getD []
      let res := command_package_write h file (CommandData.Remove key)
      let st' : StoreState :=
        ⟨{ st.manifest with
             index := aerase st.manifest.index key,
             io_handler_index :=
               ainsert st.manifest.io_handler_index st.manifest.current_gen res.2.1 },
         ainsert st.disk h.gen res.2.2⟩
      (Except.ok (), st')
  else (Except.error KvsError.KeyNotFound, st)

/-- Replay step of `load` (hash_kv.rs:283-309): `Set` inserts the location,
`Remove` erases it; a replaced or erased old entry adds `old.len + 1` to the
un-compacted counter; `Get` records are ignored. -/
def load_step (gen : Int) (acc : List (Bytes × CommandPos) × Nat)
    (pkg : CommandData × Nat × Nat) : List (Bytes × CommandPos) × Nat :=
  match pkg with
  | (CommandData.Set key _, pos, len) =>
    let old := alookup acc.1 key
    (ainsert acc.1 key ⟨gen, pos, len⟩,
      acc.2 + (match old with | some old_cmd => old_cmd.len + 1 | none => 0))
  | (CommandData.Remove key, _, _) =>
    (aerase acc.1 key,
      acc.2 + (match alookup acc.1 key with | some old_cmd => old_cmd.len + 1 | none => 0))
  | (CommandData.Get _, _, _) => acc

/-- Embeds `load` (hash_kv.rs:283-309): stream the segment into packages and replay
them into the index; `none` is the framing panic propagating out of
`from_read_to_vec`. -/
def load (gen : Int) (file : Bytes) (index : List (Bytes × CommandPos)) :
    Option (List (Bytes × CommandPos) × Nat) :=
  (from_bytes_to_vec file).map (List.foldl (load_step gen) (index, 0))

/-- Embeds `sorted_gen_list` (mod.rs:369-391): the generation numbers of the
`<gen>.log` files in ascending order. -/
def sorted_gen_list (disk : List (Int × Bytes)) : List Int :=
  List.insertionSort (· ≤ ·) (disk.map Prod.fst)

/-- Per-generation loop of `open_with_compaction_threshold`
(hash_kv.rs:77-81): create a handler for each generation in order, replay
its file into the index, and accumulate `un_compacted`. -/
def open_load_loop :
    List Int → List (Bytes × CommandPos) → Nat → List (Int × IOHandler) →
    List (Int × Bytes) →
    Option (List (Bytes × CommandPos) × Nat × List (Int × IOHandler) × List (Int × Bytes))
  | [], index, un, hmap, disk => some (index, un, hmap, disk)
  | g :: rest, index, un, hmap, disk =>
    let created := factory_create disk g
    match load g ((alookup created.2 g).getD []) index with
    | none => none
    | some (index', add) =>
      open_load_loop rest index' (un + add) (ainsert hmap g created.1) created.2

/-- Embeds `HashStore::open_with_compaction_threshold` up to hash_kv.rs:94: replay
every segment, then set `current_gen` to the highest generation (default 0)
and re-create its handler (hash_kv.rs:82-86) — the re-created handler's
buffered writer starts at the fresh file cursor. The initial compaction pass
(hash_kv.rs:100) is not yet run. -/
def open_handlers_phase (threshold : Nat) (disk0 : List (Int × Bytes)) :
    Except KvsError StoreState :=
  let gen_list := sorted_gen_list disk0
  match open_load_loop gen_list [] 0 [] disk0 with
  | none => Except.error KvsError.Io
  | some (index, un, hmap, disk1) =>
    let last_gen := gen_list.getLast?.getD 0
    let created := factory_create disk1 last_gen
    Except.ok ⟨{ index := index,
                 current_gen := last_gen,
                 un_compacted := un,
                 compaction_threshold := threshold,
                 io_handler_index := ainsert hmap last_gen created.1 }, created.2⟩

/-- Embeds `HashStore::open_with_compaction_threshold` (hash_kv.rs:59-103): the
handler phase followed by the unconditional initial `compact` pass. -/
def hashOpen (threshold : Nat) (disk0 : List (Int × Bytes)) : Except KvsError StoreState :=
  (open_handlers_phase threshold disk0).bind hashCompact

/-- A client-visible mutating operation of the `KVStore` contract. -/
inductive StoreOp : Type
  | set : Bytes → Bytes → StoreOp
  | remove : Bytes → StoreOp
deriving DecidableEq

/-- Apply one operation, propagating its error. -/
def applyOp (st : StoreState) : StoreOp → Except KvsError StoreState
  | StoreOp.set k v => hashSet st k v
  | StoreOp.remove k =>
    match hashRemove st k with
    | (Except.ok _, st') => Except.ok st'
    | (Except.error e, _) => Except.error e

/-- Run a sequence of operations; `ok` means every operation succeeded. -/
def runOps : List StoreOp → StoreState → Except KvsError StoreState
  | [], st => Except.ok st
  | op :: rest, st => (applyOp st op).bind (runOps rest)

/-- The value required by the specification: the value of the last
`set(k, v)` in the sequence that is not followed by a `remove(k)`. -/
def spec_last_set_value (ops : List StoreOp) (key : Bytes) : Option Bytes :=
  ops.foldl
    (fun acc op =>
      match op with
      | StoreOp.set k v => if k = key then some v else acc
      | StoreOp.remove k => if k = key then none else acc)
    none

/-! ## Claim C1: sequential correctness of HashStore -/

/-- Five successful writes: `[1]` is set once, then `[2]` is overwritten four
times, driving `un_compacted` past the threshold of 10 on the last `set` and
triggering a compaction. -/
def c1_ops : List StoreOp :=
  [StoreOp.set [1] [10], StoreOp.set [2] [11], StoreOp.set [2] [12],
   StoreOp.set [2] [13], StoreOp.set [2] [14]]

/-- Claim C1 fails on the code: after the five successful `set` operations of
`c1_ops` on a store opened with `compaction_threshold = 10` (all operations
return `ok`, including the compaction triggered by the last one), `get [1]`
returns `ok none`, although the last `set` of key `[1]` wrote `[10]` and no
`remove [1]` followed — the compaction left the entry for `[1]` in its old
segment (its position lies further than the threshold from the log tail),
then deleted every segment below the compaction generation together with the
index entries pointing into them. -/
theorem c1_sequential_correctness_fails :
    ((hashOpen 10 []).bind (runOps c1_ops)).bind (fun st => hashGet st [1])
        = Except.ok none ∧
    ((hashOpen 10 []).bind (runOps c1_ops)).bind (fun st => hashGet st [2])
        = Except.ok (some [14]) ∧
    spec_last_set_value c1_ops [1] = some [10] := by
  refine ⟨rfl, rfl, rfl⟩

/-! ## Claim C7: `get_max_new_pos` selects the least qualifying index -/

theorem get_max_new_pos_go_all_fail (last_pos threshold : Nat) :
    ∀ (l : List CommandPos) (i : Nat),
      (∀ e ∈ l, ¬ (last_pos - e.pos < threshold)) →
      get_max_new_pos_go l last_pos threshold i = 0 := by
  intro l
  induction l with
  | nil => intro i _; rfl
  | cons e rest ih =>
    intro i hall
    have he : ¬ (last_pos - e.pos < threshold) := hall e (by simp)
    simp only [get_max_new_pos_go, if_neg he]
    exact ih (i + 1) fun x hx => hall x (by simp [hx])

theorem get_max_new_pos_go_found (last_pos threshold : Nat) :
    ∀ (l : List CommandPos) (i : Nat), (∃ e ∈ l, last_pos - e.pos < threshold) →
      ∃ r, get_max_new_pos_go l last_pos threshold i = i + r ∧
        r < l.length ∧
        last_pos - (l.getD r ⟨0, 0, 0⟩).pos < threshold ∧
        ∀ j < r, ¬ (last_pos - (l.getD j ⟨0, 0, 0⟩).pos < threshold) := by
  intro l
  induction l with
  | nil => intro i h; simp at h
  | cons e rest ih =>
    intro i hex
    by_cases he : last_pos - e.pos < threshold
    · refine ⟨0, ?_, by simp, by simpa using he, by omega⟩
      simp [get_max_new_pos_go, if_pos he]
    · have hex2 : ∃ x ∈ rest, last_pos - x.pos < threshold := by
        rcases hex with ⟨x, hx, hPx⟩
        rcases List.mem_cons.mp hx with rfl | hx2
        · exact absurd hPx he
        · exact ⟨x, hx2, hPx⟩
      rcases ih (i + 1) hex2 with ⟨r2, hgo, hrlt, hPr, hmin⟩
      refine ⟨r2 + 1, ?_, by simpa using hrlt, by simpa using hPr, ?_⟩
      · simp only [get_max_new_pos_go, if_neg he]
        rw [hgo]
        omega
      · intro j hj
        match j with
        | 0 => simpa using he
        | j2 + 1 => simpa using hmin j2 (by omega)

/-- Claim C7: for every non-empty list of entries sorted ascending by
(gen, pos) with `last_pos = last.pos + last.len` (and, as in every call
site, every entry starting at or before `last_pos`, since the `u64`
subtraction must not underflow), `get_max_new_pos` returns the smallest
index `i` with `last_pos - entries[i].pos < threshold`, and `0` when no
entry satisfies that condition. -/
theorem get_max_new_pos_spec (entries : List CommandPos) (last_pos threshold : Nat)
    (hne : entries ≠ [])
    (hsorted : entries.Chain'
      (fun a b => a.gen < b.gen ∨ (a.gen = b.gen ∧ a.pos ≤ b.pos)))
    (hlast : last_pos = (entries.getLast hne).pos + (entries.getLast hne).len)
    (hbound : ∀ e ∈ entries, e.pos ≤ last_pos) :
    ((∃ e ∈ entries, last_pos - e.pos < threshold) →
      get_max_new_pos entries last_pos threshold < entries.length ∧
      last_pos -
        (entries.getD (get_max_new_pos entries last_pos threshold) ⟨0, 0, 0⟩).pos
          < threshold ∧
      ∀ j < get_max_new_pos entries last_pos threshold,
        ¬ (last_pos - (entries.getD j ⟨0, 0, 0⟩).pos < threshold)) ∧
    ((∀ e ∈ entries, ¬ (last_pos - e.pos < threshold)) →
      get_max_new_pos entries last_pos threshold = 0) := by
  constructor
  · intro hex
    rcases get_max_new_pos_go_found last_pos threshold entries 0 hex with
      ⟨r, hgo, h1, h2, h3⟩
    unfold get_max_new_pos
    rw [hgo]
    simp only [Nat.zero_add]
    exact ⟨h1, h2, h3⟩
  · intro hall
    exact get_max_new_pos_go_all_fail last_pos threshold entries 0 hall

/-- The two live entries of the `c1_ops` compaction, sorted by (gen, pos). -/
def c7_entries : List CommandPos := [⟨0, 4, 5⟩, ⟨0, 40, 5⟩]

theorem get_max_new_pos_spec_witness :
    (∃ e ∈ c7_entries, 45 - e.pos < 10) ∧
    (get_max_new_pos c7_entries 45 10 < c7_entries.length ∧
     45 - (c7_entries.getD (get_max_new_pos c7_entries 45 10) ⟨0, 0, 0⟩).pos < 10 ∧
     ∀ j < get_max_new_pos c7_entries 45 10,
       ¬ (45 - (c7_entries.getD j ⟨0, 0, 0⟩).pos < 10)) :=
  ⟨by decide,
   (get_max_new_pos_spec c7_entries 45 10 (by decide)
     (by simp [c7_entries]) rfl (by decide)).1 (by decide)⟩

/-! ## Claim C5: `HashStore::get` result characterisation -/

/-- Claim C5: `get` returns `ok none` when the key is absent from the index;
when the index entry resolves through its handler and a positioned read to a
`Set` record it returns that record's value; and it returns
`UnexpectedCommandType` exactly when the record decoded at the indexed
position is a `Remove` or `Get` command. -/
theorem hashGet_characterisation (st : StoreState) (key : Bytes) :
    (alookup st.manifest.index key = none → hashGet st key = Except.ok none) ∧
    (∀ cp h f k2 value,
       alookup st.manifest.index key = some cp →
       alookup st.manifest.io_handler_index cp.gen = some h →
       alookup st.disk h.gen = some f →
       rmp_from_slice (readAt f cp.pos cp.len) = some (CommandData.Set k2 value) →
       hashGet st key = Except.ok (some value)) ∧
    (hashGet st key = Except.error KvsError.UnexpectedCommandType ↔
      ∃ cp h f cmd,
        alookup st.manifest.index key = some cp ∧
        alookup st.manifest.io_handler_index cp.gen = some h ∧
        alookup st.disk h.gen = some f ∧
        rmp_from_slice (readAt f cp.pos cp.len) = some cmd ∧
        ((∃ k, cmd = CommandData.Remove k) ∨ (∃ k, cmd = CommandData.Get k))) := by
  refine ⟨?_, ?_, ?_, ?_⟩
  · intro h
    simp [hashGet, h]
  · intro cp h f k2 value h1 h2 h3 h4
    simp [hashGet, h1, h2, from_pos_unpack, h3, h4]
  · intro herr
    cases h1 : alookup st.manifest.index key with
    | none => simp [hashGet, h1] at herr
    | some cp =>
      cases h2 : alookup st.manifest.io_handler_index cp.gen with
      | none => simp [hashGet, h1, h2] at herr
      | some h =>
        cases h3 : alookup st.disk h.gen with
        | none => simp [hashGet, h1, h2, from_pos_unpack, h3] at herr
        | some f =>
          cases h4 : rmp_from_slice (readAt f cp.pos cp.len) with
          | none => simp [hashGet, h1, h2, from_pos_unpack, h3, h4] at herr
          | some cmd =>
            cases cmd with
            | Set k v => simp [hashGet, h1, h2, from_pos_unpack, h3, h4] at herr
            | Remove k => exact ⟨cp, h, f, _, rfl, h2, h3, h4, Or.inl ⟨k, rfl⟩⟩
            | Get k => exact ⟨cp, h, f, _, rfl, h2, h3, h4, Or.inr ⟨k, rfl⟩⟩
  · rintro ⟨cp, h, f, cmd, h1, h2, h3, h4, hcmd⟩
    rcases hcmd with ⟨k, rfl⟩ | ⟨k, rfl⟩ <;>
      simp [hashGet, h1, h2, from_pos_unpack, h3, h4]

/-- A segment holding `Set{[1],[7]}` then `Remove{[2]}`. -/
def c5_file : Bytes := [0, 0, 0, 5, 0, 1, 1, 1, 7] ++ [0, 0, 0, 3, 1, 1, 2]

/-- A store whose index points key `[1]` at the `Set` record and key `[2]`
(wrongly, as after corruption) at the `Remove` record of `c5_file`. -/
def c5_state : StoreState :=
  ⟨{ index := [([1], ⟨0, 4, 5⟩), ([2], ⟨0, 13, 3⟩)],
     current_gen := 0,
     un_compacted := 0,
     compaction_threshold := 100,
     io_handler_index := [(0, ⟨0, 16⟩)] },
   [(0, c5_file)]⟩

theorem hashGet_characterisation_witness :
    hashGet c5_state [3] = Except.ok none ∧
    hashGet c5_state [1] = Except.ok (some [7]) ∧
    hashGet c5_state [2] = Except.error KvsError.UnexpectedCommandType :=
  ⟨(hashGet_characterisation c5_state [3]).1 (by decide),
   (hashGet_characterisation c5_state [1]).2.1 ⟨0, 4, 5⟩ ⟨0, 16⟩ c5_file [1] [7]
     (by decide) (by decide) (by decide) (by decide),
   (hashGet_characterisation c5_state [2]).2.2.mpr
     ⟨⟨0, 13, 3⟩, ⟨0, 16⟩, c5_file, CommandData.Remove [2],
      by decide, by decide, by decide, by decide, Or.inl ⟨[2], rfl⟩⟩⟩

/-! ## Claim C6: `HashStore::remove` -/

/-- Claim C6: `remove` returns `KeyNotFound` exactly when the key is absent
from the index, leaving the store unchanged; otherwise (with the current
generation's handler present, invariant 6) it appends a framed `Remove{k}`
record to the current segment at the writer position, erases the index
entry, and returns `ok`. -/
theorem hashRemove_characterisation (st : StoreState) (key : Bytes) :
    ((hashRemove st key).1 = Except.error KvsError.KeyNotFound ↔
      alookup st.manifest.index key = none) ∧
    (alookup st.manifest.index key = none →
      hashRemove st key = (Except.error KvsError.KeyNotFound, st)) ∧
    (∀ h, (alookup st.manifest.index key).isSome →
      alookup st.manifest.io_handler_index st.manifest.current_gen = some h →
      hashRemove st key =
        (Except.ok (),
         ⟨{ st.manifest with
              index := aerase st.manifest.index key,
              io_handler_index :=
                ainsert st.manifest.io_handler_index st.manifest.current_gen
                  ⟨h.gen, h.wpos + (trans_to_vec_u8 (CommandData.Remove key)).length⟩ },
          ainsert st.disk h.gen
            (writeAt ((alookup st.disk h.gen).getD []) h.wpos
              (trans_to_vec_u8 (CommandData.Remove key)))⟩)) := by
  refine ⟨⟨?_, ?_⟩, ?_, ?_⟩
  · intro herr
    by_cases hk : (alookup st.manifest.index key).isSome
    · exfalso
      unfold hashRemove at herr
      rw [if_pos hk] at herr
      cases h2 : alookup st.manifest.io_handler_index st.manifest.current_gen with
      | none => rw [h2] at herr; simp at herr
      | some h => rw [h2] at herr; simp at herr
    · exact Option.not_isSome_iff_eq_none.mp hk
  · intro hk
    simp [hashRemove, hk]
  · intro hk
    simp [hashRemove, hk]
  · intro h hk h2
    unfold hashRemove
    rw [if_pos hk, h2]
    rfl

theorem hashRemove_characterisation_witness :
    hashRemove c5_state [9] = (Except.error KvsError.KeyNotFound, c5_state) ∧
    hashRemove c5_state [1] =
      (Except.ok (),
       ⟨{ c5_state.manifest with
            index := aerase c5_state.manifest.index [1],
            io_handler_index :=
              ainsert c5_state.manifest.io_handler_index c5_state.manifest.current_gen
                ⟨0, 16 + (trans_to_vec_u8 (CommandData.Remove [1])).length⟩ },
        ainsert c5_state.disk 0
          (writeAt ((alookup c5_state.disk 0).getD []) 16
            (trans_to_vec_u8 (CommandData.Remove [1])))⟩) :=
  ⟨(hashRemove_characterisation c5_state [9]).2.1 (by decide),
   (hashRemove_characterisation c5_state [1]).2.2 ⟨0, 16⟩ (by decide) (by decide)⟩

/-! ## Claim C10: `get_cmd_data` reads through the current handler -/

/-- Claim C10: `get_cmd_data` always resolves the indexed `(pos, len)`
against the current write generation's segment, whatever generation the
index entry records, while `get` resolves it against the segment named by
the entry's own generation. -/
theorem get_cmd_data_reads_current_segment (st : StoreState) (key : Bytes)
    (cp : CommandPos) (h : IOHandler) (fcur : Bytes)
    (hidx : alookup st.manifest.index key = some cp)
    (hgen : cp.gen ≠ st.manifest.current_gen)
    (hcur : alookup st.manifest.io_handler_index st.manifest.current_gen = some h)
    (hfile : alookup st.disk h.gen = some fcur) :
    get_cmd_data st key = Except.ok (rmp_from_slice (readAt fcur cp.pos cp.len)) ∧
    (∀ h2 f2, alookup st.manifest.io_handler_index cp.gen = some h2 →
      alookup st.disk h2.gen = some f2 →
      hashGet st key =
        match rmp_from_slice (readAt f2 cp.pos cp.len) with
        | some (CommandData.Set _ value) => Except.ok (some value)
        | some (CommandData.Remove _) => Except.error KvsError.UnexpectedCommandType
        | some (CommandData.Get _) => Except.error KvsError.UnexpectedCommandType
        | none => Except.ok none) := by
  constructor
  · simp [get_cmd_data, hidx, hcur, from_pos_unpack, hfile]
  · intro h2 f2 hh hf
    simp only [hashGet, hidx, hh, from_pos_unpack, hf]
    cases rmp_from_slice (readAt f2 cp.pos cp.len) with
    | none => rfl
    | some cmd => cases cmd <;> rfl

/-- Current segment of the C10 witness store (holds `Set{[1],[9]}`). -/
def c10_file2 : Bytes := [0, 0, 0, 5, 0, 1, 1, 1, 9]

/-- Stale segment of the C10 witness store (holds `Set{[1],[7]}`). -/
def c10_file0 : Bytes := [0, 0, 0, 5, 0, 1, 1, 1, 7]

/-- A store whose index entry for `[1]` references generation 0 while the
current write generation is 2 and the two segments hold different values. -/
def c10_state : StoreState :=
  ⟨{ index := [([1], ⟨0, 4, 5⟩)],
     current_gen := 2,
     un_compacted := 0,
     compaction_threshold := 100,
     io_handler_index := [(0, ⟨0, 9⟩), (2, ⟨2, 9⟩)] },
   [(0, c10_file0), (2, c10_file2)]⟩

theorem get_cmd_data_reads_current_segment_witness :
    get_cmd_data c10_state [1] = Except.ok (rmp_from_slice (readAt c10_file2 4 5)) ∧
    hashGet c10_state [1] = Except.ok (some [7]) ∧
    rmp_from_slice (readAt c10_file2 4 5) = some (CommandData.Set [1] [9]) :=
  ⟨(get_cmd_data_reads_current_segment c10_state [1] ⟨0, 4, 5⟩ ⟨2, 9⟩ c10_file2
      (by decide) (by decide) (by decide) (by decide)).1,
   by
     rw [(get_cmd_data_reads_current_segment c10_state [1] ⟨0, 4, 5⟩ ⟨2, 9⟩ c10_file2
       (by decide) (by decide) (by decide) (by decide)).2 ⟨0, 9⟩ c10_file0
       (by decide) (by decide)]
     rfl,
   by decide⟩

/-! ## Claim C2: writer position after open -/

/-- A directory holding one segment `0.log` of 9 bytes (a framed
`Set{[1],[7]}`). -/
def c2_disk : List (Int × Bytes) := [(0, [0, 0, 0, 5, 0, 1, 1, 1, 7])]

/-- The store state after the handler phase of `open` on `c2_disk`. -/
def c2_open_state : StoreState :=
  ⟨{ index := [([1], ⟨0, 4, 5⟩)],
     current_gen := 0,
     un_compacted := 0,
     compaction_threshold := 64,
     io_handler_index := [(0, ⟨0, 0⟩)] },
   [(0, [0, 0, 0, 5, 0, 1, 1, 1, 7])]⟩

/-- Claim C2 fails on the code: opening a directory that already contains a
non-empty log file re-creates the current generation's handler
(hash_kv.rs:86) with buffered writer position 0 — the cursor of the freshly
opened file, `seek(SeekFrom::Current(0))` in `BufWriterWithPos::new` — and
not the file's size 9, so a write through that handler would start at offset
0, over the existing records. -/
theorem bufwriter_pos_not_eof_counterexample :
    open_handlers_phase 64 c2_disk = Except.ok c2_open_state ∧
    alookup c2_open_state.manifest.io_handler_index c2_open_state.manifest.current_gen
      = some ⟨0, 0⟩ ∧
    (alookup c2_open_state.disk c2_open_state.manifest.current_gen).map List.length
      = some 9 ∧
    (0 : Nat) ≠ 9 :=
  ⟨rfl, rfl, rfl, by decide⟩

/-- Amended claim C2: after the handler phase of `open`, the current
generation's handler exists and its buffered writer position is 0 — the file
cursor at open — regardless of the size of the existing file (it equals the
file size only when the file is empty). The store nevertheless does not
overwrite existing records, because `open` unconditionally compacts before
returning, after which the current segment is freshly created and empty. -/
theorem open_handler_wpos_zero (threshold : Nat) (disk0 : List (Int × Bytes))
    (st : StoreState) (hopen : open_handlers_phase threshold disk0 = Except.ok st) :
    alookup st.manifest.io_handler_index st.manifest.current_gen
      = some ⟨st.manifest.current_gen, 0⟩ := by
  simp only [open_handlers_phase] at hopen
  rcases hll : open_load_loop (sorted_gen_list disk0) [] 0 [] disk0 with
    _ | ⟨index, un, hmap, disk1⟩
  · rw [hll] at hopen
    simp at hopen
  · rw [hll] at hopen
    simp only [Except.ok.injEq] at hopen
    subst hopen
    exact alookup_ainsert_self hmap ((sorted_gen_list disk0).getLast?.getD 0) _

theorem open_handler_wpos_zero_witness :
    open_handlers_phase 64 c2_disk = Except.ok c2_open_state ∧
    alookup c2_open_state.manifest.io_handler_index c2_open_state.manifest.current_gen
      = some ⟨c2_open_state.manifest.current_gen, 0⟩ :=
  ⟨rfl, open_handler_wpos_zero 64 c2_disk c2_open_state rfl⟩

/-! ## Claim C8: sparse-index predecessor lookup (`kernel/lsm/mod.rs`) -/

/-- Embeds `Position` (lsm/mod.rs:70-74). -/
structure Position : Type where
  start : Nat
  len : Nat
deriving DecidableEq

/-- Embeds `Ord` on byte strings (`Vec<u8>`): lexicographic element-wise order,
a strict prefix comparing less. -/
def byteCmp : Bytes → Bytes → Ordering
  | [], [] => Ordering.eq
  | [], _ :: _ => Ordering.lt
  | _ :: _, [] => Ordering.gt
  | a :: as, b :: bs =>
    if a < b then Ordering.lt else if b < a then Ordering.gt else byteCmp as bs

/-- Embeds `Position::from_sparse_index_with_key` (lsm/mod.rs:298-306): iterate the
sparse index (`SkipMap`, ascending by key) in reverse, find the first entry
whose key compares `≤ key`, and return its `Position`. -/
def from_sparse_index_with_key (sparse_index : List (Bytes × Position)) (key : Bytes) :
    Option Position :=
  ((sparse_index.reverse).find? (fun p => !(byteCmp key p.1 == Ordering.lt))).map Prod.snd

theorem byteCmp_self (a : Bytes) : byteCmp a a = Ordering.eq := by
  induction a with
  | nil => rfl
  | cons x xs ih => simp [byteCmp, ih]

theorem byteCmp_pred_iff (x : Ordering) :
    ((!(x == Ordering.lt)) = true) ↔ x ≠ Ordering.lt := by
  cases x <;> decide

theorem find_desc_spec (key : Bytes) (r : List (Bytes × Position))
    (hdesc : r.Pairwise (fun a b => byteCmp b.1 a.1 = Ordering.lt)) :
    ∀ p ∈ r, byteCmp key p.1 ≠ Ordering.lt →
    ∃ q ∈ r, r.find? (fun p => !(byteCmp key p.1 == Ordering.lt)) = some q ∧
      byteCmp key q.1 ≠ Ordering.lt ∧
      ∀ z ∈ r, byteCmp key z.1 ≠ Ordering.lt → byteCmp z.1 q.1 ≠ Ordering.gt := by
  induction r with
  | nil => intro p hp; simp at hp
  | cons a rest ih =>
    rw [List.pairwise_cons] at hdesc
    obtain ⟨ha, hrest⟩ := hdesc
    intro p hp hple
    by_cases hP : byteCmp key a.1 = Ordering.lt
    · have hp' : p ∈ rest := by
        rcases List.mem_cons.mp hp with rfl | hmem
        · exact absurd hP hple
        · exact hmem
      obtain ⟨q, hq, hfind, hqle, hmax⟩ := ih hrest p hp' hple
      refine ⟨q, List.mem_cons_of_mem a hq, ?_, hqle, ?_⟩
      · rw [List.find?_cons_of_neg _ (by rw [hP]; decide)]
        exact hfind
      · intro z hz hzle
        rcases List.mem_cons.mp hz with rfl | hzmem
        · exact absurd hP hzle
        · exact hmax z hzmem hzle
    · refine ⟨a, List.mem_cons_self a rest, ?_, hP, ?_⟩
      · exact List.find?_cons_of_pos _ ((byteCmp_pred_iff _).mpr hP)
      · intro z hz hzle
        rcases List.mem_cons.mp hz with rfl | hzmem
        · simp [byteCmp_self]
        · simp [ha z hzmem]

/-- Claim C8: over a sparse index sorted ascending by key,
`from_sparse_index_with_key` returns `none` exactly when every index key is
strictly greater than the lookup key, and otherwise returns the position of
the largest index key `≤ key`. -/
theorem from_sparse_index_with_key_spec (idx : List (Bytes × Position)) (key : Bytes)
    (hsorted : idx.Pairwise (fun a b => byteCmp a.1 b.1 = Ordering.lt)) :
    (from_sparse_index_with_key idx key = none ↔
      ∀ p ∈ idx, byteCmp key p.1 = Ordering.lt) ∧
    (∀ p ∈ idx, byteCmp key p.1 ≠ Ordering.lt →
      ∃ q ∈ idx, from_sparse_index_with_key idx key = some q.2 ∧
        byteCmp key q.1 ≠ Ordering.lt ∧
        ∀ z ∈ idx, byteCmp key z.1 ≠ Ordering.lt → byteCmp z.1 q.1 ≠ Ordering.gt) := by
  have hdesc : (idx.reverse).Pairwise (fun a b => byteCmp b.1 a.1 = Ordering.lt) :=
    List.pairwise_reverse.mpr hsorted
  constructor
  · unfold from_sparse_index_with_key
    rw [Option.map_eq_none', List.find?_eq_none]
    constructor
    · intro hall p hp
      by_contra hne
      exact (hall p (List.mem_reverse.mpr hp)) ((byteCmp_pred_iff _).mpr hne)
    · intro hall p hp hpred
      exact absurd (hall p (List.mem_reverse.mp hp)) ((byteCmp_pred_iff _).mp hpred)
  · intro p hp hple
    obtain ⟨q, hq, hfind, hqle, hmax⟩ :=
      find_desc_spec key idx.reverse hdesc p (List.mem_reverse.mpr hp) hple
    refine ⟨q, List.mem_reverse.mp hq, ?_, hqle, ?_⟩
    · unfold from_sparse_index_with_key
      rw [hfind]
      rfl
    · intro z hz hzle
      exact hmax z (List.mem_reverse.mpr hz) hzle

/-- A two-entry sparse index with keys `[1]` and `[3]`. -/
def c8_idx : List (Bytes × Position) := [([1], ⟨0, 5⟩), ([3], ⟨5, 7⟩)]

theorem from_sparse_index_with_key_spec_witness :
    (from_sparse_index_with_key c8_idx [0] = none ↔
      ∀ p ∈ c8_idx, byteCmp [0] p.1 = Ordering.lt) ∧
    (∃ q ∈ c8_idx, from_sparse_index_with_key c8_idx [2] = some q.2 ∧
      byteCmp [2] q.1 ≠ Ordering.lt ∧
      ∀ z ∈ c8_idx, byteCmp [2] z.1 ≠ Ordering.lt → byteCmp z.1 q.1 ≠ Ordering.gt) :=
  ⟨(from_sparse_index_with_key_spec c8_idx [0] (by simp [c8_idx, byteCmp])).1,
   (from_sparse_index_with_key_spec c8_idx [2] (by simp [c8_idx, byteCmp])).2
     ([1], ⟨0, 5⟩) (by decide) (by decide)⟩

/-! ## Claim C4: compaction post-condition -/

theorem alookup_ainsert {α β : Type} [DecidableEq α]
    (l : List (α × β)) (k' : α) (v' : β) (k : α) :
    alookup (ainsert l k' v') k = if k' = k then some v' else alookup l k := by
  induction l with
  | nil =>
    by_cases h : k' = k <;> simp [ainsert, alookup, h]
  | cons p rest ih =>
    obtain ⟨a, b⟩ := p
    by_cases h1 : a = k'
    · subst h1
      by_cases h2 : a = k <;> simp [ainsert, alookup, h2]
    · by_cases h2 : a = k
      · subst h2
        have : ¬ k' = a := fun hc => h1 hc.symm
        simp [ainsert, alookup, h1, this]
      · simp [ainsert, alookup, h1, h2, ih]

theorem alookup_isSome_mem_keys {α β : Type} [DecidableEq α]
    (l : List (α × β)) (k : α) (h : (alookup l k).isSome) : k ∈ l.map Prod.fst := by
  induction l with
  | nil => simp [alookup] at h
  | cons p rest ih =>
    obtain ⟨a, b⟩ := p
    by_cases ha : a = k
    · simp [ha]
    · simp only [alookup, if_neg ha] at h
      simp [ih h]

theorem alookup_filter_keep_none {α β : Type} [DecidableEq α] [BEq α] [LawfulBEq α]
    (l : List (α × β)) (g g' : α) (h : alookup l g = none) :
    alookup (l.filter (fun p => !(p.1 == g'))) g = none := by
  induction l with
  | nil => simp [alookup]
  | cons p rest ih =>
    obtain ⟨a, b⟩ := p
    by_cases ha : a = g
    · simp [alookup, ha] at h
    · simp only [alookup, if_neg ha] at h
      by_cases hk : a = g'
      · subst hk
        simpa [List.filter_cons] using ih h
      · have hbeq : (a == g') = false := by simp [hk]
        simpa [List.filter_cons, hbeq, alookup, ha] using ih h

theorem alookup_factory_clean_self (d : List (Int × Bytes)) (g : Int) :
    alookup (factory_clean d g) g = none := by
  induction d with
  | nil => rfl
  | cons p rest ih =>
    obtain ⟨a, b⟩ := p
    by_cases ha : a = g
    · subst ha
      simpa [factory_clean, List.filter_cons] using ih
    · have hbeq : (a == g) = false := by simp [ha]
      simp only [factory_clean, List.filter_cons, hbeq, Bool.not_false, if_pos]
      simp only [factory_clean] at ih
      simpa [alookup, ha] using ih

theorem alookup_foldl_clean_preserve (gs : List Int) :
    ∀ (d : List (Int × Bytes)) (g : Int), alookup d g = none →
      alookup (gs.foldl (fun d' g' => factory_clean d' g') d) g = none := by
  induction gs with
  | nil => intro d g h; simpa using h
  | cons x rest ih =>
    intro d g h
    exact ih _ g (alookup_filter_keep_none d g x h)

theorem alookup_foldl_clean_none (gs : List Int) :
    ∀ (d : List (Int × Bytes)) (g : Int), g ∈ gs →
      alookup (gs.foldl (fun d' g' => factory_clean d' g') d) g = none := by
  induction gs with
  | nil => intro d g hg; simp at hg
  | cons x rest ih =>
    intro d g hg
    rcases List.mem_cons.mp hg with rfl | hmem
    · exact alookup_foldl_clean_preserve rest _ g (alookup_factory_clean_self d g)
    · exact ih _ g hmem

theorem compact_loop_entries (compact_gen : Int) (skip_index : Nat)
    (hmap : List (Int × IOHandler)) :
    ∀ (entries : List (Bytes × CommandPos)) (i : Nat) (disk : List (Int × Bytes))
      (ch : IOHandler) (wl : Nat) (out : List (Bytes × CommandPos))
      (d : List (Int × Bytes)) (c : IOHandler) (w : Nat),
      compact_loop compact_gen skip_index hmap entries i disk ch wl
        = Except.ok (out, d, c, w) →
      ∀ e ∈ out, e.2.gen = compact_gen ∨ e ∈ entries := by
  intro entries
  induction entries with
  | nil =>
    intro i disk ch wl out d c w hok e he
    simp only [compact_loop, Except.ok.injEq, Prod.mk.injEq] at hok
    obtain ⟨h1, -, -, -⟩ := hok
    rw [← h1] at he
    simp at he
  | cons kv rest ih =>
    intro i disk ch wl out d c w hok e he
    obtain ⟨k, cp⟩ := kv
    simp only [compact_loop] at hok
    split at hok
    · -- skip_index ≤ i: the entry is re-read and possibly rewritten
      split at hok
      · -- handler found
        split at hok
        · -- read error
          simp at hok
        · -- record decoded: rewritten to compact_gen
          rename_i cmd_data hfpu
          split at hok
          · simp at hok
          · rename_i out2 d2 c2 w2 hrec
            simp only [Except.ok.injEq, Prod.mk.injEq] at hok
            obtain ⟨h1, -, -, -⟩ := hok
            rw [← h1] at he
            rcases List.mem_cons.mp he with rfl | hmem
            · exact Or.inl rfl
            · rcases ih (i + 1) _ _ _ out2 d2 c2 w2 hrec e hmem with hcg | hm
              · exact Or.inl hcg
              · exact Or.inr (List.mem_cons_of_mem _ hm)
        · -- decode failure: entry kept
          split at hok
          · simp at hok
          · rename_i out2 d2 c2 w2 hrec
            simp only [Except.ok.injEq, Prod.mk.injEq] at hok
            obtain ⟨h1, -, -, -⟩ := hok
            rw [← h1] at he
            rcases List.mem_cons.mp he with rfl | hmem
            · exact Or.inr (List.mem_cons_self _ _)
            · rcases ih (i + 1) _ _ _ out2 d2 c2 w2 hrec e hmem with hcg | hm
              · exact Or.inl hcg
              · exact Or.inr (List.mem_cons_of_mem _ hm)
      · -- handler missing: entry kept
        split at hok
        · simp at hok
        · rename_i out2 d2 c2 w2 hrec
          simp only [Except.ok.injEq, Prod.mk.injEq] at hok
          obtain ⟨h1, -, -, -⟩ := hok
          rw [← h1] at he
          rcases List.mem_cons.mp he with rfl | hmem
          · exact Or.inr (List.mem_cons_self _ _)
          · rcases ih (i + 1) _ _ _ out2 d2 c2 w2 hrec e hmem with hcg | hm
            · exact Or.inl hcg
            · exact Or.inr (List.mem_cons_of_mem _ hm)
    · -- i < skip_index: entry skipped, kept as-is
      split at hok
      · simp at hok
      · rename_i out2 d2 c2 w2 hrec
        simp only [Except.ok.injEq, Prod.mk.injEq] at hok
        obtain ⟨h1, -, -, -⟩ := hok
        rw [← h1] at he
        rcases List.mem_cons.mp he with rfl | hmem
        · exact Or.inr (List.mem_cons_self _ _)
        · rcases ih (i + 1) _ _ _ out2 d2 c2 w2 hrec e hmem with hcg | hm
          · exact Or.inl hcg
          · exact Or.inr (List.mem_cons_of_mem _ hm)

/-- Amended claim C4: when `compact` succeeds on a store with a *non-empty*
index whose entries all have a handler in the map (spec invariant 6/1), with
`compact_gen = old current_gen + 1`: every surviving index entry and every
surviving handler has `gen ≥ compact_gen`, and the file of every generation
that was in the handler map with `gen < compact_gen` has been deleted. (On
an empty index the code returns before `retain`, leaving stale handlers and
files — see the counterexample.) -/
theorem hashCompact_postcondition (st st' : StoreState)
    (hne : st.manifest.index ≠ [])
    (hgens : ∀ e ∈ st.manifest.index,
      (alookup st.manifest.io_handler_index e.2.gen).isSome)
    (hok : hashCompact st = Except.ok st') :
    (∀ e ∈ st'.manifest.index, st.manifest.current_gen + 1 ≤ e.2.gen) ∧
    (∀ p ∈ st'.manifest.io_handler_index, st.manifest.current_gen + 1 ≤ p.1) ∧
    (∀ g : Int, (alookup st.manifest.io_handler_index g).isSome →
      g < st.manifest.current_gen + 1 → alookup st'.disk g = none) := by
  simp only [hashCompact] at hok
  split at hok
  · simp at hok
  · split at hok
    · -- `getLast? = none` contradicts the non-empty index
      rename_i heqLast
      rw [List.getLast?_eq_none_iff] at heqLast
      have hperm := List.perm_insertionSort cmdPosOrder st.manifest.index
      rw [heqLast] at hperm
      exact absurd hperm.symm.eq_nil hne
    · rename_i lastE heqLast
      split at hok
      · simp at hok
      · rename_i entries2 disk3 ch2 wl hloop
        simp only [Except.ok.injEq] at hok
        subst hok
        refine ⟨?_, ?_, ?_⟩
        · -- surviving index entries
          intro e he
          simp only [List.mem_filter] at he
          obtain ⟨he2, hcont⟩ := he
          rcases compact_loop_entries _ _ _ _ _ _ _ _ _ _ _ _ hloop e he2 with hcg | horig
          · rw [hcg]
          · have hmem : e ∈ st.manifest.index := (List.mem_insertionSort cmdPosOrder).mp horig
            have hsome := hgens e hmem
            by_contra hlt
            push_neg at hlt
            have h1 : (alookup
                (ainsert
                  (ainsert st.manifest.io_handler_index (st.manifest.current_gen + 2)
                    (factory_create st.disk (st.manifest.current_gen + 2)).1)
                  ch2.gen ch2) e.2.gen).isSome := by
              rw [alookup_ainsert, alookup_ainsert]
              split
              · rfl
              · split
                · rfl
                · exact hsome
            have h2 := alookup_isSome_mem_keys _ _ h1
            have h3 : e.2.gen ∈ (List.map Prod.fst
                (ainsert
                  (ainsert st.manifest.io_handler_index (st.manifest.current_gen + 2)
                    (factory_create st.disk (st.manifest.current_gen + 2)).1)
                  ch2.gen ch2)).filter
                (fun g => decide (g < st.manifest.current_gen + 1)) :=
              List.mem_filter.mpr ⟨h2, by simpa using hlt⟩
            rw [List.contains_eq_any_beq] at hcont
            have : ¬ e.2.gen ∈ (List.map Prod.fst
                (ainsert
                  (ainsert st.manifest.io_handler_index (st.manifest.current_gen + 2)
                    (factory_create st.disk (st.manifest.current_gen + 2)).1)
                  ch2.gen ch2)).filter
                (fun g => decide (g < st.manifest.current_gen + 1)) := by
              intro hin
              have := List.any_of_mem hin (by simp : (e.2.gen == e.2.gen) = true)
              simp [this] at hcont
            exact this h3
        · -- surviving handlers
          intro p hp
          simp only [List.mem_filter] at hp
          obtain ⟨hp2, hcont⟩ := hp
          by_contra hlt
          push_neg at hlt
          have h2 : p.1 ∈ List.map Prod.fst
              (ainsert
                (ainsert st.manifest.io_handler_index (st.manifest.current_gen + 2)
                  (factory_create st.disk (st.manifest.current_gen + 2)).1)
                ch2.gen ch2) := List.mem_map_of_mem Prod.fst hp2
          have h3 : p.1 ∈ (List.map Prod.fst
              (ainsert
                (ainsert st.manifest.io_handler_index (st.manifest.current_gen + 2)
                  (factory_create st.disk (st.manifest.current_gen + 2)).1)
                ch2.gen ch2)).filter
              (fun g => decide (g < st.manifest.current_gen + 1)) :=
            List.mem_filter.mpr ⟨h2, by simpa using hlt⟩
          rw [List.contains_eq_any_beq] at hcont
          have := List.any_of_mem h3 (by simp : (p.1 == p.1) = true)
          simp [this] at hcont
        · -- stale files deleted
          intro g hg hlt
          have h1 : (alookup
              (ainsert
                (ainsert st.manifest.io_handler_index (st.manifest.current_gen + 2)
                  (factory_create st.disk (st.manifest.current_gen + 2)).1)
                ch2.gen ch2) g).isSome := by
            rw [alookup_ainsert, alookup_ainsert]
            split
            · rfl
            · split
              · rfl
              · exact hg
          have h2 := alookup_isSome_mem_keys _ _ h1
          have h3 : g ∈ (List.map Prod.fst
              (ainsert
                (ainsert st.manifest.io_handler_index (st.manifest.current_gen + 2)
                  (factory_create st.disk (st.manifest.current_gen + 2)).1)
                ch2.gen ch2)).filter
              (fun g2 => decide (g2 < st.manifest.current_gen + 1)) :=
            List.mem_filter.mpr ⟨h2, by simpa using hlt⟩
          exact alookup_foldl_clean_none _ _ g h3

/-- A store with one handler (generation 0) and an *empty* index. -/
def c4_state : StoreState :=
  ⟨{ index := [],
     current_gen := 0,
     un_compacted := 0,
     compaction_threshold := 10,
     io_handler_index := [(0, ⟨0, 0⟩)] },
   [(0, [])]⟩

/-- Claim C4 fails on the code as stated: compacting `c4_state` (empty
index) succeeds with `compact_gen = 0 + 1 = 1`, yet the generation-0 handler
is still in the handler map and `0.log` still exists — the `retain` step is
skipped entirely when the sorted entry list has no last element. -/
theorem hashCompact_postcondition_counterexample :
    hashCompact c4_state =
      Except.ok
        ⟨{ index := [],
           current_gen := 2,
           un_compacted := 0,
           compaction_threshold := 10,
           io_handler_index := [(0, ⟨0, 0⟩), (2, ⟨2, 0⟩)] },
         [(0, []), (2, []), (1, [])]⟩ ∧
    ((0, (⟨0, 0⟩ : IOHandler)) ∈
      ([(0, ⟨0, 0⟩), (2, ⟨2, 0⟩)] : List (Int × IOHandler))) ∧
    ¬ (c4_state.manifest.current_gen + 1 ≤ (0 : Int)) ∧
    alookup ([(0, []), (2, []), (1, [])] : List (Int × Bytes)) 0 = some [] :=
  ⟨rfl, by decide, by decide, rfl⟩

/-- A store with one live entry in generation 0, used to witness the amended
compaction post-condition. -/
def c4w_state : StoreState :=
  ⟨{ index := [([1], ⟨0, 4, 5⟩)],
     current_gen := 0,
     un_compacted := 0,
     compaction_threshold := 100,
     io_handler_index := [(0, ⟨0, 9⟩)] },
   [(0, c10_file0)]⟩

/-- The result of compacting `c4w_state`: the entry is rewritten into
generation 1, generation 0's handler and file are gone. -/
def c4w_result : StoreState :=
  ⟨{ index := [([1], ⟨1, 4, 5⟩)],
     current_gen := 2,
     un_compacted := 5,
     compaction_threshold := 100,
     io_handler_index := [(2, ⟨2, 0⟩), (1, ⟨1, 9⟩)] },
   [(2, []), (1, [0, 0, 0, 5, 0, 1, 1, 1, 7])]⟩

theorem hashCompact_postcondition_witness :
    hashCompact c4w_state = Except.ok c4w_result ∧
    (∀ e ∈ c4w_result.manifest.index, c4w_state.manifest.current_gen + 1 ≤ e.2.gen) ∧
    (∀ p ∈ c4w_result.manifest.io_handler_index,
      c4w_state.manifest.current_gen + 1 ≤ p.1) ∧
    (∀ g : Int, (alookup c4w_state.manifest.io_handler_index g).isSome →
      g < c4w_state.manifest.current_gen + 1 → alookup c4w_result.disk g = none) :=
  ⟨rfl,
   (hashCompact_postcondition c4w_state c4w_result (by decide) (by decide) rfl).1,
   (hashCompact_postcondition c4w_state c4w_result (by decide) (by decide) rfl).2.1,
   (hashCompact_postcondition c4w_state c4w_result (by decide) (by decide) rfl).2.2⟩
